import Mathlib

/-!
The `/metrics` request pipeline of aws-ebs-state-exporter.

A shallow embedding of `main.go`: the label sanitizer `formatLabelName`, the
construction of a volume's label-set signature in the region collector loop,
the per-request metric aggregator, and the `/metrics` handler with its region
fan-out and deadline gate.

A Go `string` is embedded as the list of its characters.
-/

namespace EbsExporter

/-- A Go `string`, as the sequence of its characters (the regular expression
engine reads a string rune by rune). -/
abbrev Text := List Char

/-! ## Label sanitizer (`main.go`, lines 113-117) -/

/-- The characters of the class `a-zA-Z0-9:_`. -/
def allowedLabelChar (c : Char) : Bool :=
  (decide ('a' ≤ c) && decide (c ≤ 'z')) ||
  (decide ('A' ≤ c) && decide (c ≤ 'Z')) ||
  (decide ('0' ≤ c) && decide (c ≤ '9')) ||
  c == ':' || c == '_'

/-- One character of the negated class `[^a-zA-Z0-9:_]` of the pattern
`forbiddenLabelChars`. -/
def forbiddenLabelChar (c : Char) : Bool :=
  !allowedLabelChar c

/-- `forbiddenLabelChars.ReplaceAllString(text, repl)` for the pattern
`[^a-zA-Z0-9:_]+`, scanning left to right. `inMatch` tells whether the
previous character belonged to a match: the greedy `+` extends that match over
every following forbidden character, and the replacement is emitted once, where
the match starts. -/
def replaceAllString (repl : Text) : Bool → Text → Text
  | _, [] => []
  | inMatch, c :: cs =>
    if forbiddenLabelChar c then
      if inMatch then replaceAllString repl true cs
      else repl ++ replaceAllString repl true cs
    else c :: replaceAllString repl false cs

/-- `formatLabelName` of `main.go`. -/
def formatLabelName (text : Text) : Text :=
  replaceAllString "_".toList false text

/-! ### The sanitizer as the spec words it -/

/-- A piece of sanitized text: an input character that was kept, or the
replacement marker standing for one run of forbidden characters. -/
inductive Piece where
  | keep (c : Char)
  | marker
  deriving DecidableEq, Repr

/-- The character a piece is written as. -/
def Piece.render : Piece → Char
  | .keep c => c
  | .marker => '_'

/-- The kept character of a piece, if it is one. -/
def Piece.kept? : Piece → Option Char
  | .keep c => some c
  | .marker => none

/-- Spec wording of the sanitizer: every allowed character is kept; a forbidden
character starts a run that extends over all forbidden characters following it
(so the run is maximal), and the whole run becomes one marker. -/
def replaceRuns : Text → List Piece
  | [] => []
  | c :: cs =>
    if allowedLabelChar c then .keep c :: replaceRuns cs
    else .marker :: replaceRuns (cs.dropWhile forbiddenLabelChar)
termination_by s => s.length
decreasing_by
  all_goals simp_wf
  · exact Nat.lt_succ_of_le (List.dropWhile_sublist _).length_le

/-! ## Volumes and their label-set signature (`main.go`, lines 62-74) -/

/-- A tag of a volume as the provider returns it: key and value are pointers
and either may be missing. -/
structure Tag where
  Key : Option Text
  Value : Option Text
  deriving DecidableEq, Repr

/-- A storage volume as the provider returns it. The collector dereferences
`volume.VolumeId` unconditionally, so the identifier is taken as present. -/
structure Volume where
  Tags : List Tag
  State : Text
  VolumeId : Text
  VolumeType : Text
  deriving DecidableEq, Repr

/-- The label `fmt.Sprintf("tag_%s=\"%s\"", formatLabelName(key), value)` of
line 68. -/
def tagLabel (key value : Text) : Text :=
  "tag_".toList ++ formatLabelName key ++ "=\"".toList ++ value ++ "\"".toList

/-- The loop over `volume.Tags` of lines 64-69: `labels` is the slice built so
far; a tag with a nil key or a nil value is skipped by `continue`. -/
def appendTagLabels (labels : List Text) : List Tag → List Text
  | [] => labels
  | tag :: tags =>
    match tag.Key, tag.Value with
    | some key, some value => appendTagLabels (labels ++ [tagLabel key value]) tags
    | _, _ => appendTagLabels labels tags

/-- The label `fmt.Sprintf("<name>=\"%s\"", value)` of lines 70-73. -/
def fixedLabel (name value : Text) : Text :=
  name ++ "=\"".toList ++ value ++ "\"".toList

/-- The slice `labels` after lines 63-73. -/
def volumeLabels (region : Text) (volume : Volume) : List Text :=
  let labels := appendTagLabels [] volume.Tags
  let labels := labels ++ [fixedLabel "state".toList volume.State]
  let labels := labels ++ [fixedLabel "name".toList volume.VolumeId]
  let labels := labels ++ [fixedLabel "type".toList volume.VolumeType]
  let labels := labels ++ [fixedLabel "region".toList region]
  labels

/-- The call `strings.Join(elems, sep)`. -/
def stringsJoin : List Text → Text → Text
  | [], _ => []
  | [e], _ => e
  | e :: next :: rest, sep => e ++ sep ++ stringsJoin (next :: rest) sep

/-- The metric name passed to `GetOrCreateCounter` on line 74. -/
def volumeSignature (region : Text) (volume : Volume) : Text :=
  "aws_ebs_volume_state\x7b".toList ++ stringsJoin (volumeLabels region volume) ",".toList
    ++ "\x7d".toList

/-- Spec wording of the tag part of a signature: one entry for each tag that
has both a key and a value, none for the others. -/
def tagEntry? (tag : Tag) : Option Text :=
  match tag.Key, tag.Value with
  | some key, some value =>
    some ("tag_".toList ++ formatLabelName key ++ "=\"".toList ++ value ++ "\"".toList)
  | _, _ => none

/-- Spec wording of the four mandatory entries, in their fixed order. -/
def mandatoryEntries (region : Text) (volume : Volume) : List Text :=
  ["state=\"".toList ++ volume.State ++ "\"".toList,
   "name=\"".toList ++ volume.VolumeId ++ "\"".toList,
   "type=\"".toList ++ volume.VolumeType ++ "\"".toList,
   "region=\"".toList ++ region ++ "\"".toList]

/-! ## Metric aggregator -/

/-- Modelled from the spec: the Metric Aggregator (`metrics.Set` of the metrics
library, whose source is not in this repository), a mapping from label-set
signature to counter value, kept in order of creation. -/
abbrev MetricsSet := List (Text × Nat)

/-- Modelled from the spec: `metrics.NewSet()`, the fresh aggregator of a
request; it holds no signature. -/
def NewSet : MetricsSet := []

/-- The value stored for `name`, if a counter of that name is present. -/
def MetricsSet.count? : MetricsSet → Text → Option Nat
  | [], _ => none
  | (k, v) :: rest, name => if k = name then some v else MetricsSet.count? rest name

/-- The signatures present in the aggregator. -/
def MetricsSet.names (s : MetricsSet) : List Text :=
  s.map Prod.fst

/-- Modelled from the spec: `GetOrCreateCounter(name)` creates the counter at 0
if it is absent and leaves the aggregator as it is otherwise. -/
def MetricsSet.GetOrCreateCounter (s : MetricsSet) (name : Text) : MetricsSet :=
  match s.count? name with
  | some _ => s
  | none => s ++ [(name, 0)]

/-- Modelled from the spec: `Add(n)` on the counter called `name`. -/
def MetricsSet.Add : MetricsSet → Text → Nat → MetricsSet
  | [], _, _ => []
  | (k, v) :: rest, name, n =>
    if k = name then (k, v + n) :: MetricsSet.Add rest name n
    else (k, v) :: MetricsSet.Add rest name n

/-- The `record` operation, `metricsSet.GetOrCreateCounter(name).Add(1)` of
line 74. -/
def MetricsSet.record (s : MetricsSet) (name : Text) : MetricsSet :=
  (s.GetOrCreateCounter name).Add name 1

/-- A sequence of `record` calls, in the order in which they take effect. -/
def MetricsSet.recordAll (s : MetricsSet) (calls : List Text) : MetricsSet :=
  calls.foldl MetricsSet.record s

/-! ## Response transport -/

/-- One line of a response body: a plain-text line written by `http.Error`, or
the exposition line `name value` of one counter. -/
inductive BodyLine where
  | text (s : Text)
  | metric (name : Text) (value : Nat)
  deriving DecidableEq, Repr

/-- The `http.ResponseWriter` of a request: the status code fixed by the first
`WriteHeader` (none while no header was written) and the lines written. -/
structure ResponseWriter where
  status : Option Nat
  body : List BodyLine
  deriving DecidableEq, Repr

/-- The call `w.WriteHeader(code)`: the first call fixes the status, a later
one changes nothing. -/
def ResponseWriter.WriteHeader (w : ResponseWriter) (code : Nat) : ResponseWriter :=
  match w.status with
  | some _ => w
  | none => { w with status := some code }

/-- The call `w.Write`: it sends the header with status 200 when none was
written, and appends to the body. -/
def ResponseWriter.Write (w : ResponseWriter) (lines : List BodyLine) : ResponseWriter :=
  let w := w.WriteHeader 200
  { w with body := w.body ++ lines }

/-- The call `http.Error(w, error, code)`: `WriteHeader(code)`, then the error
text as one line. -/
def httpError (w : ResponseWriter) (error : Text) (code : Nat) : ResponseWriter :=
  (w.WriteHeader code).Write [BodyLine.text error]

/-- Modelled from the spec: `render`, the call `metricsSet.WritePrometheus(w)`
writes one line `name value` for each signature present. -/
def MetricsSet.WritePrometheus (s : MetricsSet) (w : ResponseWriter) : ResponseWriter :=
  w.Write (s.map fun e => BodyLine.metric e.1 e.2)

/-! ## The `/metrics` handler (`main.go`, lines 27-94) -/

/-- The inventory client of one request: the answer of `DescribeRegions` (region
names are pointers and may be nil) and the answer of `DescribeVolumes` in each
region. An error is given by its text, `err.Error()`. -/
structure Env where
  DescribeRegions : Except Text (List (Option Text))
  DescribeVolumes : Text → Except Text (List Volume)

/-- The loop of lines 39-45: the names of the regions, those without a name
skipped. -/
def regionNames : List (Option Text) → List Text
  | [] => []
  | none :: regs => regionNames regs
  | some name :: regs => name :: regionNames regs

/-- An effect of a region collector on the state of the request. -/
inductive Action where
  /-- Line 56: the call `aws.DescribeVolumes` in the region. -/
  | describeVolumes (region : Text)
  /-- Line 58: `http.Error(w, err.Error(), http.StatusInternalServerError)`. -/
  | reportError (err : Text)
  /-- Line 74: `metricsSet.GetOrCreateCounter(signature).Add(1)`. -/
  | record (signature : Text)
  deriving DecidableEq, Repr

/-- The effects of the collector goroutine of one region (lines 50-76), in
program order: the volume query, then either the error report followed by
`return`, or one `record` per volume. -/
def collectorProgram (env : Env) (region : Text) : List Action :=
  Action.describeVolumes region ::
    match env.DescribeVolumes region with
    | .error err => [Action.reportError err]
    | .ok volumes => volumes.map fun volume => Action.record (volumeSignature region volume)

/-- The state of a request while its collectors run: the response writer and
the aggregator they share, what is left of each collector's program, and the
regions whose volumes were queried so far. -/
structure ReqState where
  w : ResponseWriter
  metricsSet : MetricsSet
  pending : List (List Action)
  queried : List Text
  deriving DecidableEq, Repr

/-- The effect of one action. -/
def perform (st : ReqState) : Action → ReqState
  | .describeVolumes region => { st with queried := st.queried ++ [region] }
  | .reportError err => { st with w := httpError st.w err 500 }
  | .record signature => { st with metricsSet := st.metricsSet.record signature }

/-- The scheduler lets collector `i` take its next step; a collector that has
returned, or an index that names none, does nothing. -/
def stepCollector (st : ReqState) (i : Nat) : ReqState :=
  match st.pending.get? i with
  | some (action :: rest) => perform { st with pending := st.pending.set i rest } action
  | _ => st

/-- The collectors run concurrently; `schedule` lists, in the order in which
they take effect, the collector steps that happen before the deadline. -/
def runCollectors (st : ReqState) (schedule : List Nat) : ReqState :=
  schedule.foldl stepCollector st

/-- `wg.Wait()` returns: every collector has run to its end. -/
def allFinished (st : ReqState) : Bool :=
  st.pending.all List.isEmpty

/-- What a request leaves behind: the response (a handler that returns without
writing a header answers 200), and for the claims about what was not done: the
number of collectors launched, the regions queried, the aggregator, and whether
`WritePrometheus` was called. -/
structure Outcome where
  status : Nat
  body : List BodyLine
  launched : Nat
  queried : List Text
  recorded : MetricsSet
  rendered : Bool
  deriving DecidableEq, Repr

/-- The state in which the collectors of `regions` are launched (lines 47-77). -/
def launch (env : Env) (regions : List Text) : ReqState :=
  { w := { status := none, body := [] }
    metricsSet := NewSet
    pending := regions.map (collectorProgram env)
    queried := [] }

/-- The `/metrics` handler. `schedule` is the interleaving of the collectors up
to the deadline: the completion signal wins the `select` of lines 86-91 when
every collector has finished by then, the timer wins otherwise. -/
def metricsHandler (env : Env) (schedule : List Nat) : Outcome :=
  let w : ResponseWriter := { status := none, body := [] }
  match env.DescribeRegions with
  | .error err =>
    let w := httpError w err 500
    { status := w.status.getD 200, body := w.body, launched := 0, queried := [],
      recorded := NewSet, rendered := false }
  | .ok regionsOutput =>
    let regions := regionNames regionsOutput
    let st := runCollectors (launch env regions) schedule
    if allFinished st then
      let w := st.metricsSet.WritePrometheus st.w
      { status := w.status.getD 200, body := w.body, launched := regions.length,
        queried := st.queried, recorded := st.metricsSet, rendered := true }
    else
      let w := httpError st.w "timeout".toList 408
      { status := w.status.getD 200, body := w.body, launched := regions.length,
        queried := st.queried, recorded := st.metricsSet, rendered := false }

/-- Every signature recorded when each collector of `regions` runs to its end,
region by region. -/
def allSignatures (env : Env) (regions : List Text) : List Text :=
  regions.flatMap fun region =>
    match env.DescribeVolumes region with
    | .error _ => []
    | .ok volumes => volumes.map (volumeSignature region)

/-! ## Concrete inputs -/

/-- A volume without tags. -/
def plainVolume (volumeId : Text) : Volume :=
  { Tags := [], State := "in-use".toList, VolumeId := volumeId, VolumeType := "gp2".toList }

/-- A volume identifier that contains double quotes. -/
def quotedVolumeId : Text := "v\",type=\"gp2\",region=\"x".toList

/-- A region name that contains double quotes. -/
def quotedRegion : Text := "x\",type=\"gp2\",region=\"r".toList

/-- The signature of an action that records one, for reading a trace. -/
def Action.signature? : Action → Option Text
  | .record signature => some signature
  | _ => none

/-- An inventory whose region discovery fails. -/
def discoveryDown : Env :=
  { DescribeRegions := Except.error "denied".toList
    DescribeVolumes := fun _ => Except.ok [plainVolume "vol-1".toList] }

/-- An inventory of two named regions and one without a name; each named
region holds one volume, called after the region. -/
def twoRegions : Env :=
  { DescribeRegions := Except.ok [some "r1".toList, none, some "r2".toList]
    DescribeVolumes := fun region => Except.ok [plainVolume ("vol-".toList ++ region)] }

/-- An inventory of two regions: the volume listing of `r1` fails with the
error `boom`, region `r2` holds the volume `vol-2`. -/
def oneRegionDown : Env :=
  { DescribeRegions := Except.ok [some "r1".toList, some "r2".toList]
    DescribeVolumes := fun region =>
      if region = "r1".toList then Except.error "boom".toList
      else Except.ok [plainVolume "vol-2".toList] }

/-! # Properties -/

/-! ## The label sanitizer -/

theorem allowedLabelChar_underscore : allowedLabelChar '_' = true := by decide

theorem forbiddenLabelChar_eq_false {c : Char} (h : allowedLabelChar c = true) :
    forbiddenLabelChar c = false := by
  simp [forbiddenLabelChar, h]

theorem replaceAllString_all_allowed (inMatch : Bool) (text : Text) :
    (replaceAllString "_".toList inMatch text).all allowedLabelChar = true := by
  induction text generalizing inMatch with
  | nil => simp [replaceAllString]
  | cons c cs ih =>
    unfold replaceAllString
    by_cases hc : forbiddenLabelChar c = true
    · cases inMatch
      · simp only [hc, if_true, Bool.false_eq_true, if_false]
        have h := ih true
        simp only [List.all_eq_true] at h ⊢
        intro x hx
        rcases List.mem_append.1 hx with hx | hx
        · have : x = '_' := by simpa using hx
          rw [this]; exact allowedLabelChar_underscore
        · exact h x hx
      · simpa [hc] using ih true
    · have hcf : forbiddenLabelChar c = false := by simpa using hc
      have hc' : allowedLabelChar c = true := by
        simpa [forbiddenLabelChar] using hcf
      simpa [hcf, hc'] using ih false

theorem replaceAllString_clean (repl : Text) (s : Text)
    (h : s.all allowedLabelChar = true) : replaceAllString repl false s = s := by
  induction s with
  | nil => simp [replaceAllString]
  | cons c cs ih =>
    simp only [List.all_cons, Bool.and_eq_true] at h
    unfold replaceAllString
    simp [forbiddenLabelChar_eq_false h.1, ih h.2]

theorem replaceAllString_inMatch (repl : Text) (cs : Text) :
    replaceAllString repl true cs
      = replaceAllString repl false (cs.dropWhile forbiddenLabelChar) := by
  induction cs with
  | nil => simp [replaceAllString]
  | cons c cs ih =>
    by_cases hc : forbiddenLabelChar c = true
    · rw [List.dropWhile_cons_of_pos hc, ← ih]
      conv_lhs => unfold replaceAllString
      simp [hc]
    · rw [List.dropWhile_cons_of_neg hc]
      unfold replaceAllString
      simp [hc]

theorem formatLabelName_eq_replaceRuns (text : Text) :
    formatLabelName text = (replaceRuns text).map Piece.render := by
  unfold formatLabelName
  induction text using replaceRuns.induct with
  | case1 => simp [replaceAllString, replaceRuns]
  | case2 c cs hc ih =>
    rw [replaceRuns]
    unfold replaceAllString
    simpa [forbiddenLabelChar_eq_false hc, hc, Piece.render] using ih
  | case3 c cs hc ih =>
    rw [replaceRuns]
    have hf : forbiddenLabelChar c = true := by simp [forbiddenLabelChar, hc]
    unfold replaceAllString
    simp only [hf, if_true, Bool.false_eq_true, if_false, hc]
    rw [replaceAllString_inMatch, ih]
    simp [Piece.render]

theorem replaceRuns_kept (text : Text) :
    (replaceRuns text).filterMap Piece.kept? = text.filter allowedLabelChar := by
  induction text using replaceRuns.induct with
  | case1 => simp [replaceRuns]
  | case2 c cs hc ih =>
    rw [replaceRuns]
    simp [hc, ih, Piece.kept?]
  | case3 c cs hc ih =>
    rw [replaceRuns]
    simp only [hc, Bool.false_eq_true, if_false, List.filterMap_cons, Piece.kept?, ih]
    rw [List.filter_cons_of_neg (by simp [hc])]
    clear ih
    induction cs with
    | nil => simp
    | cons d ds ihd =>
      by_cases hd : forbiddenLabelChar d = true
      · rw [List.dropWhile_cons_of_pos hd, ihd]
        have : allowedLabelChar d = false := by simpa [forbiddenLabelChar] using hd
        simp [this]
      · rw [List.dropWhile_cons_of_neg hd]

theorem replaceRuns_head_after_run (cs : Text) :
    (replaceRuns (cs.dropWhile forbiddenLabelChar)).head? ≠ some Piece.marker := by
  cases h : cs.dropWhile forbiddenLabelChar with
  | nil => simp [replaceRuns]
  | cons d ds =>
    have hd : ¬ forbiddenLabelChar d = true := by
      have := List.head_dropWhile_not forbiddenLabelChar cs (by simp [h])
      simpa [h] using this
    have hd' : allowedLabelChar d = true := by simpa [forbiddenLabelChar] using hd
    rw [replaceRuns]
    simp [hd']

theorem replaceRuns_no_adjacent_markers (text : Text) :
    List.Chain' (fun a b => ¬ (a = Piece.marker ∧ b = Piece.marker)) (replaceRuns text) := by
  induction text using replaceRuns.induct with
  | case1 => simp [replaceRuns]
  | case2 c cs hc ih =>
    rw [replaceRuns]
    simp only [hc, if_true]
    rw [List.chain'_cons']
    exact ⟨by intro y _; simp, ih⟩
  | case3 c cs hc ih =>
    rw [replaceRuns]
    simp only [hc, Bool.false_eq_true, if_false]
    rw [List.chain'_cons']
    refine ⟨?_, ih⟩
    intro y hy
    have := replaceRuns_head_after_run cs
    intro h
    exact this (by rw [h.2] at hy; exact hy)

/-- C4: every character of `formatLabelName text` lies in `[a-zA-Z0-9:_]`, for
every input; the function is total. -/
theorem formatLabelName_all_allowed (text : Text) :
    (formatLabelName text).all allowedLabelChar = true :=
  replaceAllString_all_allowed false text

/-- C5: `formatLabelName text` is the text in which each maximal run of
forbidden characters is replaced by one marker `_` and every allowed character
is kept: the kept characters are the allowed characters of the input, unchanged
and in their order, and no two markers are adjacent (one marker per run). -/
theorem formatLabelName_replaces_runs (text : Text) :
    formatLabelName text = (replaceRuns text).map Piece.render ∧
    (replaceRuns text).filterMap Piece.kept? = text.filter allowedLabelChar ∧
    List.Chain' (fun a b => ¬ (a = Piece.marker ∧ b = Piece.marker)) (replaceRuns text) :=
  ⟨formatLabelName_eq_replaceRuns text, replaceRuns_kept text,
    replaceRuns_no_adjacent_markers text⟩

/-- C6: sanitizing a string all of whose characters are allowed gives the
string back, and so sanitizing twice is the same as sanitizing once. -/
theorem formatLabelName_clean (s t : Text) (h : s.all allowedLabelChar = true) :
    formatLabelName s = s ∧
    formatLabelName (formatLabelName t) = formatLabelName t :=
  ⟨replaceAllString_clean _ s h,
    replaceAllString_clean _ _ (replaceAllString_all_allowed false t)⟩

/-- Witness of C6 at the clean string `vol_1:a`. -/
theorem formatLabelName_clean_witness :
    "vol_1:a".toList.all allowedLabelChar = true ∧
    formatLabelName "vol_1:a".toList = "vol_1:a".toList ∧
    formatLabelName (formatLabelName "my key".toList) = formatLabelName "my key".toList :=
  ⟨by decide, formatLabelName_clean "vol_1:a".toList "my key".toList (by decide)⟩


/-! ## The label-set signature -/

theorem appendTagLabels_eq (labels : List Text) (tags : List Tag) :
    appendTagLabels labels tags = labels ++ tags.filterMap tagEntry? := by
  induction tags generalizing labels with
  | nil => simp [appendTagLabels]
  | cons tag tags ih =>
    obtain ⟨key, value⟩ := tag
    cases key <;> cases value <;>
      simp [appendTagLabels, tagEntry?, tagLabel, ih]

theorem volumeLabels_eq (region : Text) (volume : Volume) :
    volumeLabels region volume
      = volume.Tags.filterMap tagEntry? ++ mandatoryEntries region volume := by
  simp [volumeLabels, appendTagLabels_eq, mandatoryEntries, fixedLabel]

theorem stringsJoin_eq_intercalate (elems : List Text) (sep : Text) :
    stringsJoin elems sep = sep.intercalate elems := by
  induction elems with
  | nil => simp [stringsJoin, List.intercalate]
  | cons e rest ih =>
    cases rest with
    | nil => simp [stringsJoin, List.intercalate]
    | cons e2 rest2 =>
      rw [stringsJoin, ih]
      simp [List.intercalate, List.intersperse]

theorem stringsJoin_snoc (elems : List Text) (e sep : Text) (h : elems ≠ []) :
    stringsJoin (elems ++ [e]) sep = stringsJoin elems sep ++ sep ++ e := by
  induction elems with
  | nil => exact absurd rfl h
  | cons a rest ih =>
    cases rest with
    | nil => simp [stringsJoin]
    | cons b rest2 =>
      have := ih (by simp)
      simp only [List.cons_append] at this ⊢
      rw [stringsJoin, this]
      conv_rhs => rw [stringsJoin]
      simp [List.append_assoc]

/-- The text up to the first occurrence of a character determines the split. -/
theorem eq_of_append_cons_eq {c : Char} :
    ∀ (a b r₁ r₂ : Text), c ∉ a → c ∉ b → a ++ c :: r₁ = b ++ c :: r₂ → a = b
  | [], [], _, _, _, _, _ => rfl
  | [], y :: b, _, _, _, hb, h => by
    simp only [List.nil_append, List.cons_append, List.cons.injEq] at h
    exact absurd (by rw [h.1]; exact List.mem_cons_self _ _) hb
  | x :: a, [], _, _, ha, _, h => by
    simp only [List.nil_append, List.cons_append, List.cons.injEq] at h
    exact absurd (by rw [← h.1]; exact List.mem_cons_self _ _) ha
  | x :: a, y :: b, r₁, r₂, ha, hb, h => by
    simp only [List.cons_append, List.cons.injEq] at h
    have := eq_of_append_cons_eq a b r₁ r₂
      (fun hc => ha (List.mem_cons_of_mem _ hc)) (fun hc => hb (List.mem_cons_of_mem _ hc)) h.2
    rw [h.1, this]

/-- The signature, split right before the volume identifier. -/
theorem volumeSignature_split (region : Text) (volume : Volume) :
    volumeSignature region volume
      = ("aws_ebs_volume_state\x7b".toList
          ++ stringsJoin (volume.Tags.filterMap tagEntry?
              ++ ["state=\"".toList ++ volume.State ++ "\"".toList]) ",".toList
          ++ ",name=\"".toList)
        ++ (volume.VolumeId ++ '"' ::
          (",type=\"".toList ++ volume.VolumeType ++ "\",region=\"".toList ++ region
            ++ "\"\x7d".toList)) := by
  unfold volumeSignature
  rw [volumeLabels_eq]
  have h : volume.Tags.filterMap tagEntry? ++ mandatoryEntries region volume
      = (((volume.Tags.filterMap tagEntry?
            ++ ["state=\"".toList ++ volume.State ++ "\"".toList])
          ++ ["name=\"".toList ++ volume.VolumeId ++ "\"".toList])
          ++ ["type=\"".toList ++ volume.VolumeType ++ "\"".toList])
          ++ ["region=\"".toList ++ region ++ "\"".toList] := by
    simp [mandatoryEntries]
  rw [h, stringsJoin_snoc _ _ _ (by simp), stringsJoin_snoc _ _ _ (by simp),
    stringsJoin_snoc _ _ _ (by simp)]
  simp [List.append_assoc]

/-- C3: the signature of a volume is `aws_ebs_volume_state{L}` with `L` the
comma-join of one entry `tag_<formatLabelName key>="<value>"` per tag that has
both key and value, in the order of the tags, followed by the four entries
`state`, `name`, `type`, `region`; the label slice always ends in those four. -/
theorem volumeSignature_spec (region : Text) (volume : Volume) :
    volumeSignature region volume
      = "aws_ebs_volume_state\x7b".toList
        ++ ",".toList.intercalate
            (volume.Tags.filterMap tagEntry? ++ mandatoryEntries region volume)
        ++ "\x7d".toList ∧
    volumeLabels region volume
      = volume.Tags.filterMap tagEntry? ++ mandatoryEntries region volume ∧
    (volumeLabels region volume).drop (volume.Tags.filterMap tagEntry?).length
      = mandatoryEntries region volume := by
  refine ⟨?_, volumeLabels_eq region volume, ?_⟩
  · rw [volumeSignature, stringsJoin_eq_intercalate, volumeLabels_eq]
  · rw [volumeLabels_eq, List.drop_left]


/-- C10, the claim as stated fails: two volumes in different regions with the
same tags, state and type and different identifiers get one and the same
signature when identifier and region contain double quotes. -/
theorem volumeSignature_collision :
    quotedRegion ≠ "r".toList ∧
    (plainVolume "v".toList).Tags = (plainVolume quotedVolumeId).Tags ∧
    (plainVolume "v".toList).State = (plainVolume quotedVolumeId).State ∧
    (plainVolume "v".toList).VolumeType = (plainVolume quotedVolumeId).VolumeType ∧
    (plainVolume "v".toList).VolumeId ≠ (plainVolume quotedVolumeId).VolumeId ∧
    volumeSignature quotedRegion (plainVolume "v".toList)
      = volumeSignature "r".toList (plainVolume quotedVolumeId) := by
  decide

/-- C10, amended: two volumes with the same tags, state and type and different
identifiers, neither identifier containing a double quote, get different
signatures, whatever their regions are; recording both leaves two counters. -/
theorem volumeSignature_injective_volumeId (region₁ region₂ : Text) (v₁ v₂ : Volume)
    (htags : v₁.Tags = v₂.Tags) (hstate : v₁.State = v₂.State)
    (_htype : v₁.VolumeType = v₂.VolumeType)
    (hq₁ : '"' ∉ v₁.VolumeId) (hq₂ : '"' ∉ v₂.VolumeId)
    (hid : v₁.VolumeId ≠ v₂.VolumeId) :
    volumeSignature region₁ v₁ ≠ volumeSignature region₂ v₂ ∧
    (NewSet.recordAll [volumeSignature region₁ v₁, volumeSignature region₂ v₂]).names
      = [volumeSignature region₁ v₁, volumeSignature region₂ v₂] := by
  have hne : volumeSignature region₁ v₁ ≠ volumeSignature region₂ v₂ := by
    intro h
    rw [volumeSignature_split, volumeSignature_split, htags, hstate] at h
    exact hid (eq_of_append_cons_eq _ _ _ _ hq₁ hq₂ (List.append_cancel_left h))
  refine ⟨hne, ?_⟩
  simp [MetricsSet.recordAll, MetricsSet.record, MetricsSet.GetOrCreateCounter,
    MetricsSet.count?, MetricsSet.Add, MetricsSet.names, NewSet, hne]

/-- Witness of the amended C10 at the volumes `vol-1` and `vol-2` of two
regions. -/
theorem volumeSignature_injective_volumeId_witness :
    volumeSignature "us-east-1".toList (plainVolume "vol-1".toList)
      ≠ volumeSignature "eu-west-1".toList (plainVolume "vol-2".toList) ∧
    (NewSet.recordAll [volumeSignature "us-east-1".toList (plainVolume "vol-1".toList),
        volumeSignature "eu-west-1".toList (plainVolume "vol-2".toList)]).names
      = [volumeSignature "us-east-1".toList (plainVolume "vol-1".toList),
         volumeSignature "eu-west-1".toList (plainVolume "vol-2".toList)] :=
  volumeSignature_injective_volumeId "us-east-1".toList "eu-west-1".toList
    (plainVolume "vol-1".toList) (plainVolume "vol-2".toList) rfl rfl rfl
    (by decide) (by decide) (by decide)


/-! ## The metric aggregator -/

theorem count?_eq_none_iff (s : MetricsSet) (name : Text) :
    s.count? name = none ↔ name ∉ s.names := by
  induction s with
  | nil => simp [MetricsSet.count?, MetricsSet.names]
  | cons e rest ih =>
    obtain ⟨k, v⟩ := e
    by_cases hk : k = name
    · simp [MetricsSet.count?, MetricsSet.names, hk]
    · have hk' : ¬ name = k := fun h => hk h.symm
      simpa [MetricsSet.count?, MetricsSet.names, hk, hk'] using ih

theorem names_Add (s : MetricsSet) (name : Text) (n : Nat) :
    (s.Add name n).names = s.names := by
  induction s with
  | nil => simp [MetricsSet.Add, MetricsSet.names]
  | cons e rest ih =>
    obtain ⟨k, v⟩ := e
    simp only [MetricsSet.names] at ih
    by_cases hk : k = name <;> simp [MetricsSet.Add, MetricsSet.names, hk, ih]

theorem count?_Add (s : MetricsSet) (name : Text) (n : Nat) (k : Text) :
    (s.Add name n).count? k
      = if k = name then (s.count? name).map (· + n) else s.count? k := by
  induction s with
  | nil => simp [MetricsSet.Add, MetricsSet.count?]
  | cons e rest ih =>
    obtain ⟨key, v⟩ := e
    by_cases h1 : key = name
    · by_cases h2 : k = name
      · simp [MetricsSet.Add, MetricsSet.count?, h1, h2]
      · have h3 : ¬ name = k := fun h => h2 h.symm
        simpa [MetricsSet.Add, MetricsSet.count?, h1, h2, h3] using ih
    · by_cases h2 : k = name
      · subst h2
        simpa [MetricsSet.Add, MetricsSet.count?, h1] using ih
      · by_cases h3 : key = k
        · simp [MetricsSet.Add, MetricsSet.count?, h1, h2, h3]
        · simpa [MetricsSet.Add, MetricsSet.count?, h1, h2, h3] using ih

theorem count?_append_new (s : MetricsSet) (name k : Text) (h : s.count? name = none) :
    (s ++ [(name, 0)]).count? k = if k = name then some 0 else s.count? k := by
  induction s with
  | nil =>
    by_cases hk : k = name
    · simp [MetricsSet.count?, hk]
    · have hk' : ¬ name = k := fun h => hk h.symm
      simp [MetricsSet.count?, hk, hk']
  | cons e rest ih =>
    obtain ⟨key, v⟩ := e
    by_cases h1 : key = name
    · simp [MetricsSet.count?, h1] at h
    · have hrest : MetricsSet.count? rest name = none := by
        simpa [MetricsSet.count?, h1] using h
      by_cases h2 : key = k
      · have h3 : ¬ k = name := fun h => h1 (h2.trans h)
        simp [MetricsSet.count?, h2, h3]
      · simpa [MetricsSet.count?, h2] using ih hrest

theorem count?_record (s : MetricsSet) (name k : Text) :
    (s.record name).count? k
      = if k = name then some ((s.count? name).getD 0 + 1) else s.count? k := by
  unfold MetricsSet.record MetricsSet.GetOrCreateCounter
  rw [count?_Add]
  cases h : s.count? name with
  | none =>
    by_cases hk : k = name
    · simp [hk, count?_append_new s name name h]
    · simp [hk, count?_append_new s name k h]
  | some v => simp [h]

theorem names_record (s : MetricsSet) (name : Text) :
    (s.record name).names = if name ∈ s.names then s.names else s.names ++ [name] := by
  unfold MetricsSet.record MetricsSet.GetOrCreateCounter
  rw [names_Add]
  cases h : s.count? name with
  | none =>
    have := (count?_eq_none_iff s name).1 h
    simp only [MetricsSet.names] at this ⊢
    simp [this]
  | some v =>
    have : name ∈ s.names := by
      by_contra hn
      rw [(count?_eq_none_iff s name).2 hn] at h
      exact Option.noConfusion h
    simp [this]

theorem names_record_nodup (s : MetricsSet) (name : Text) (h : s.names.Nodup) :
    (s.record name).names.Nodup := by
  rw [names_record]
  by_cases hm : name ∈ s.names
  · simpa [hm] using h
  · simp only [hm, if_false]
    exact List.Nodup.append h (List.nodup_singleton _) (by simpa using hm)

theorem recordAll_cons (s : MetricsSet) (name : Text) (calls : List Text) :
    s.recordAll (name :: calls) = (s.record name).recordAll calls := rfl

theorem names_recordAll_nodup (s : MetricsSet) (calls : List Text) (h : s.names.Nodup) :
    (s.recordAll calls).names.Nodup := by
  induction calls generalizing s with
  | nil => exact h
  | cons c cs ih =>
    rw [recordAll_cons]
    exact ih _ (names_record_nodup s c h)

theorem count?_recordAll (s : MetricsSet) (calls : List Text) (k : Text) :
    (s.recordAll calls).count? k
      = if k ∈ calls then some ((s.count? k).getD 0 + calls.count k) else s.count? k := by
  induction calls generalizing s with
  | nil => simp [MetricsSet.recordAll]
  | cons c cs ih =>
    rw [recordAll_cons, ih, count?_record]
    by_cases hkc : k = c
    · subst hkc
      by_cases hmem : k ∈ cs
      · simp [hmem, List.count_cons_self]; omega
      · simp [hmem, List.count_cons_self, List.count_eq_zero_of_not_mem hmem]
    · have hck : ¬ c = k := fun h => hkc h.symm
      by_cases hmem : k ∈ cs
      · simp [hkc, hmem, List.count_cons_of_ne hck]
      · simp [hkc, hck, hmem]

theorem count?_NewSet_recordAll (calls : List Text) (k : Text) :
    (NewSet.recordAll calls).count? k
      = if k ∈ calls then some (calls.count k) else none := by
  rw [count?_recordAll]
  simp [NewSet, MetricsSet.count?]

/-- The state of a fresh aggregator after record calls made in any order. -/
theorem count?_recordAll_of_perm (calls calls' : List Text) (h : calls'.Perm calls)
    (signature : Text) :
    (NewSet.recordAll calls').count? signature
      = (if signature ∈ calls then some (calls.count signature) else none) ∧
    (signature ∈ (NewSet.recordAll calls').names ↔ signature ∈ calls) := by
  have hc : (NewSet.recordAll calls').count? signature
      = if signature ∈ calls then some (calls.count signature) else none := by
    have hcount : calls'.count signature = calls.count signature := by
      unfold List.count
      exact h.countP_eq _
    rw [count?_NewSet_recordAll, hcount]
    by_cases hm : signature ∈ calls
    · simp [hm, h.mem_iff.2 hm]
    · have hm' : signature ∉ calls' := fun hm' => hm (h.mem_iff.1 hm')
      simp [hm, hm']
  refine ⟨hc, ?_⟩
  by_cases hm : signature ∈ calls
  · have : (NewSet.recordAll calls').count? signature ≠ none := by simp [hc, hm]
    have := (not_congr (count?_eq_none_iff _ signature)).1 this
    simpa [hm] using this
  · have : (NewSet.recordAll calls').count? signature = none := by simp [hc, hm]
    have := (count?_eq_none_iff _ signature).1 this
    simpa [hm] using this

/-- C2: on a fresh aggregator, after the record calls of `calls` made in any
order `calls'`, the count stored for a signature is the number of calls made
with that signature, and a signature never recorded is absent. -/
theorem recordAll_count_perm (calls calls' : List Text) (h : calls'.Perm calls)
    (signature : Text) :
    (NewSet.recordAll calls').count? signature
      = (if signature ∈ calls then some (calls.count signature) else none) ∧
    (signature ∈ (NewSet.recordAll calls').names ↔ signature ∈ calls) :=
  count?_recordAll_of_perm calls calls' h signature

/-- Witness of C2 at three calls with two signatures, in two orders. -/
theorem recordAll_count_perm_witness :
    (NewSet.recordAll ["a".toList, "b".toList, "a".toList]).count? "a".toList
      = (if "a".toList ∈ ["a".toList, "a".toList, "b".toList]
          then some (["a".toList, "a".toList, "b".toList].count "a".toList) else none) ∧
    ("a".toList ∈ (NewSet.recordAll ["a".toList, "b".toList, "a".toList]).names
      ↔ "a".toList ∈ ["a".toList, "a".toList, "b".toList]) :=
  recordAll_count_perm ["a".toList, "a".toList, "b".toList]
    ["a".toList, "b".toList, "a".toList]
    ((List.Perm.swap _ _ _).cons _) "a".toList


/-! ## The `/metrics` handler -/

theorem flatten_set_perm (a : Action) (rest : List Action) :
    ∀ (pending : List (List Action)) (i : Nat), pending.get? i = some (a :: rest) →
      (a :: (pending.set i rest).flatten).Perm pending.flatten
  | [], _, h => by simp at h
  | p :: ps, 0, h => by
    have hp : p = a :: rest := by simpa using h
    simp [hp]
  | p :: ps, i + 1, h => by
    have hi : ps.get? i = some (a :: rest) := by simpa using h
    have ih := flatten_set_perm a rest ps i hi
    simp only [List.set_cons_succ, List.flatten_cons]
    exact List.perm_middle.symm.trans (ih.append_left p)

/-- One scheduler step performs at most one action of one collector. -/
theorem stepCollector_trace (st : ReqState) (i : Nat) :
    ∃ trace : List Action,
      (trace ++ (stepCollector st i).pending.flatten).Perm st.pending.flatten ∧
      (stepCollector st i).metricsSet
        = st.metricsSet.recordAll (trace.filterMap Action.signature?) ∧
      ((∀ err, Action.reportError err ∉ trace) → (stepCollector st i).w = st.w) := by
  unfold stepCollector
  cases h : st.pending.get? i with
  | none => exact ⟨[], by simp, by simp [MetricsSet.recordAll], fun _ => rfl⟩
  | some program =>
    cases program with
    | nil => exact ⟨[], by simp, by simp [MetricsSet.recordAll], fun _ => rfl⟩
    | cons action rest =>
      refine ⟨[action], ?_, ?_, ?_⟩
      · cases action <;> simpa [perform] using flatten_set_perm _ rest st.pending i h
      · cases action <;> simp [perform, MetricsSet.recordAll, Action.signature?]
      · intro hno
        cases action with
        | describeVolumes region => simp [perform]
        | reportError err => exact absurd (List.mem_singleton_self _) (hno err)
        | record signature => simp [perform]

/-- What the collectors did before the deadline is a trace of actions which,
together with what is left of the programs, makes up the programs. -/
theorem runCollectors_trace (schedule : List Nat) :
    ∀ st : ReqState, ∃ trace : List Action,
      (trace ++ (runCollectors st schedule).pending.flatten).Perm st.pending.flatten ∧
      (runCollectors st schedule).metricsSet
        = st.metricsSet.recordAll (trace.filterMap Action.signature?) ∧
      ((∀ err, Action.reportError err ∉ trace) → (runCollectors st schedule).w = st.w) := by
  induction schedule with
  | nil => intro st; exact ⟨[], by simp [runCollectors], by simp [runCollectors, MetricsSet.recordAll], fun _ => rfl⟩
  | cons i rest ih =>
    intro st
    obtain ⟨t₁, hp₁, hm₁, hw₁⟩ := stepCollector_trace st i
    obtain ⟨t₂, hp₂, hm₂, hw₂⟩ := ih (stepCollector st i)
    have hrun : runCollectors st (i :: rest) = runCollectors (stepCollector st i) rest := rfl
    refine ⟨t₁ ++ t₂, ?_, ?_, ?_⟩
    · rw [hrun]
      have h1 : (t₁ ++ t₂ ++ (runCollectors (stepCollector st i) rest).pending.flatten).Perm
          (t₁ ++ (stepCollector st i).pending.flatten) := by
        rw [List.append_assoc]
        exact hp₂.append_left t₁
      exact h1.trans hp₁
    · rw [hrun, hm₂, hm₁]
      simp [MetricsSet.recordAll, List.filterMap_append, List.foldl_append]
    · intro hno
      rw [hrun, hw₂ (fun err h => hno err (List.mem_append_right _ h)),
        hw₁ (fun err h => hno err (List.mem_append_left _ h))]

theorem flatten_eq_nil_of_all_isEmpty (pending : List (List Action))
    (h : pending.all List.isEmpty = true) : pending.flatten = [] := by
  induction pending with
  | nil => rfl
  | cons p ps ih =>
    simp only [List.all_cons, Bool.and_eq_true, List.isEmpty_iff] at h
    simp [h.1, ih h.2]

theorem collectorProgram_signatures (env : Env) (region : Text) :
    (collectorProgram env region).filterMap Action.signature?
      = match env.DescribeVolumes region with
        | .error _ => []
        | .ok volumes => volumes.map (volumeSignature region) := by
  unfold collectorProgram
  cases env.DescribeVolumes region with
  | error err => simp [Action.signature?]
  | ok volumes =>
    simp only [List.filterMap_cons, Action.signature?]
    induction volumes with
    | nil => rfl
    | cons v vs ih => simp [Action.signature?, ih]

theorem programs_signatures (env : Env) (regions : List Text) :
    ((regions.map (collectorProgram env)).flatten).filterMap Action.signature?
      = allSignatures env regions := by
  induction regions with
  | nil => simp [allSignatures]
  | cons r rs ih =>
    simp only [List.map_cons, List.flatten_cons, List.filterMap_append, ih,
      collectorProgram_signatures, allSignatures, List.flatMap_cons]

theorem programs_no_error (env : Env) (regions : List Text)
    (hvol : ∀ region ∈ regions, ∃ volumes, env.DescribeVolumes region = .ok volumes)
    (err : Text) :
    Action.reportError err ∉ (regions.map (collectorProgram env)).flatten := by
  intro h
  obtain ⟨program, hprog, hmem⟩ := List.mem_flatten.1 h
  obtain ⟨region, hregion, rfl⟩ := List.mem_map.1 hprog
  obtain ⟨volumes, hv⟩ := hvol region hregion
  simp [collectorProgram, hv] at hmem


theorem count?_of_mem (s : MetricsSet) (h : s.names.Nodup) :
    ∀ e ∈ s, s.count? e.1 = some e.2 := by
  induction s with
  | nil => intro e he; simp at he
  | cons x rest ih =>
    obtain ⟨key, v⟩ := x
    simp only [MetricsSet.names, List.map_cons, List.nodup_cons] at h
    intro e he
    rcases List.mem_cons.1 he with rfl | he
    · simp [MetricsSet.count?]
    · have hne : ¬ key = e.1 := by
        intro hk
        exact h.1 (by rw [hk]; exact List.mem_map_of_mem _ he)
      simpa [MetricsSet.count?, hne] using ih h.2 e he

/-- The response writer holds no line as long as no header was written. -/
theorem runCollectors_body_nil (schedule : List Nat) :
    ∀ st : ReqState, (st.w.status = none → st.w.body = []) →
      (runCollectors st schedule).w.status = none → (runCollectors st schedule).w.body = [] := by
  induction schedule with
  | nil => intro st h; exact h
  | cons i rest ih =>
    intro st h
    apply ih (stepCollector st i)
    unfold stepCollector
    cases hp : st.pending.get? i with
    | none => exact h
    | some program =>
      cases program with
      | nil => exact h
      | cons action more =>
        cases action with
        | describeVolumes region => exact h
        | reportError err =>
          intro hs
          cases hst : st.w.status <;>
            simp [perform, httpError, ResponseWriter.Write, ResponseWriter.WriteHeader, hst] at hs
        | record signature => exact h

/-- The deadline gate where no collector has reported a failure before the
deadline: the timeout answers 408 with the single line `timeout`. -/
theorem metricsHandler_timeout_clean (env : Env) (schedule : List Nat)
    (regionsOutput : List (Option Text))
    (hreg : env.DescribeRegions = .ok regionsOutput)
    (hfin : allFinished (runCollectors (launch env (regionNames regionsOutput)) schedule) = false)
    (hclean : (runCollectors (launch env (regionNames regionsOutput)) schedule).w.status = none) :
    (metricsHandler env schedule).status = 408 ∧
    (metricsHandler env schedule).body = [BodyLine.text "timeout".toList] := by
  have hbody := runCollectors_body_nil schedule (launch env (regionNames regionsOutput))
    (fun _ => rfl) hclean
  simp [metricsHandler, hreg, hfin, httpError, ResponseWriter.Write,
    ResponseWriter.WriteHeader, hclean, hbody]

/-- C1: when region discovery succeeds, the volume listing of every region
succeeds and every collector finishes before the deadline, the response has
status 200 and its body is one metric line per distinct signature among the
volumes of all regions: no signature is missing or repeated, and there is no
other line. -/
theorem metricsHandler_success (env : Env) (schedule : List Nat)
    (regionsOutput : List (Option Text))
    (hreg : env.DescribeRegions = .ok regionsOutput)
    (hvol : ∀ region ∈ regionNames regionsOutput,
      ∃ volumes, env.DescribeVolumes region = .ok volumes)
    (hfin : allFinished (runCollectors (launch env (regionNames regionsOutput)) schedule)
      = true) :
    (metricsHandler env schedule).status = 200 ∧
    ∃ signatures : List Text, signatures.Nodup ∧
      (∀ s, s ∈ signatures ↔ s ∈ allSignatures env (regionNames regionsOutput)) ∧
      (metricsHandler env schedule).body
        = signatures.map fun s =>
            BodyLine.metric s ((allSignatures env (regionNames regionsOutput)).count s) := by
  obtain ⟨trace, hperm, hms, hw⟩ :=
    runCollectors_trace schedule (launch env (regionNames regionsOutput))
  have hflat := flatten_eq_nil_of_all_isEmpty _ hfin
  rw [hflat, List.append_nil] at hperm
  have hperm' : trace.Perm
      ((regionNames regionsOutput).map (collectorProgram env)).flatten := hperm
  have hw' : (runCollectors (launch env (regionNames regionsOutput)) schedule).w
      = { status := none, body := [] } :=
    hw fun err h => programs_no_error env _ hvol err (hperm'.mem_iff.1 h)
  have hsig : (trace.filterMap Action.signature?).Perm
      (allSignatures env (regionNames regionsOutput)) := by
    rw [← programs_signatures]
    exact hperm'.filterMap _
  have hms' : (runCollectors (launch env (regionNames regionsOutput)) schedule).metricsSet
      = NewSet.recordAll (trace.filterMap Action.signature?) := hms
  have hnodup : (NewSet.recordAll (trace.filterMap Action.signature?)).names.Nodup :=
    names_recordAll_nodup NewSet _ (by simp [NewSet, MetricsSet.names])
  have hstep : metricsHandler env schedule
      = { status := 200
          body := (NewSet.recordAll (trace.filterMap Action.signature?)).map
            fun e => BodyLine.metric e.1 e.2
          launched := (regionNames regionsOutput).length
          queried := (runCollectors (launch env (regionNames regionsOutput)) schedule).queried
          recorded := NewSet.recordAll (trace.filterMap Action.signature?)
          rendered := true } := by
    simp [metricsHandler, hreg, hfin, hw', hms', MetricsSet.WritePrometheus,
      ResponseWriter.Write, ResponseWriter.WriteHeader]
  rw [hstep]
  refine ⟨rfl, (NewSet.recordAll (trace.filterMap Action.signature?)).names, hnodup,
    fun s => (count?_recordAll_of_perm _ _ hsig s).2, ?_⟩
  simp only [MetricsSet.names, List.map_map]
  apply List.map_congr_left
  intro e he
  have h1 := count?_of_mem _ hnodup e he
  have h2 := (count?_recordAll_of_perm _ _ hsig e.1).1
  rw [h1] at h2
  by_cases hm : e.1 ∈ allSignatures env (regionNames regionsOutput)
  · simp only [hm, if_true, Option.some.injEq] at h2
    simp [h2]
  · simp [hm] at h2

/-- Witness of C1 at two regions with one volume each, the collectors
alternating and all done before the deadline. -/
theorem metricsHandler_success_witness :
    (metricsHandler twoRegions [0, 1, 0, 1]).status = 200 ∧
    ∃ signatures : List Text, signatures.Nodup ∧
      (∀ s, s ∈ signatures ↔ s ∈ allSignatures twoRegions ["r1".toList, "r2".toList]) ∧
      (metricsHandler twoRegions [0, 1, 0, 1]).body
        = signatures.map fun s =>
            BodyLine.metric s ((allSignatures twoRegions ["r1".toList, "r2".toList]).count s) :=
  metricsHandler_success twoRegions [0, 1, 0, 1] [some "r1".toList, none, some "r2".toList]
    rfl (fun _ _ => ⟨_, rfl⟩) (by decide)

/-- C7: when region discovery fails, the response is status 500 with the text
of that error, no collector is launched, no region is queried, nothing is
recorded and nothing is rendered; the schedule plays no part. -/
theorem metricsHandler_discovery_failure (env : Env) (schedule : List Nat) (err : Text)
    (herr : env.DescribeRegions = .error err) :
    metricsHandler env schedule
      = { status := 500, body := [BodyLine.text err], launched := 0, queried := [],
          recorded := NewSet, rendered := false } := by
  simp [metricsHandler, herr, httpError, ResponseWriter.Write, ResponseWriter.WriteHeader]

/-- Witness of C7 at an inventory whose discovery fails with `denied`. -/
theorem metricsHandler_discovery_failure_witness :
    metricsHandler discoveryDown [0, 0, 1]
      = { status := 500, body := [BodyLine.text "denied".toList], launched := 0, queried := [],
          recorded := NewSet, rendered := false } :=
  metricsHandler_discovery_failure discoveryDown [0, 0, 1] "denied".toList rfl

/-- C8, the code at a failing input: the collector of `r1` reports its error
before the deadline and the collector of `r2` has not finished when the timer
fires. The status is the 500 of the collector, not 408, and the body holds the
error text before the line `timeout`. -/
theorem metricsHandler_timeout_after_error :
    allFinished (runCollectors (launch oneRegionDown ["r1".toList, "r2".toList]) [0, 0])
      = false ∧
    (metricsHandler oneRegionDown [0, 0]).status = 500 ∧
    (metricsHandler oneRegionDown [0, 0]).body
      = [BodyLine.text "boom".toList, BodyLine.text "timeout".toList] := by
  decide

/-- C9, the code at a failing input: the collector of `r1` reports its error,
the collector of `r2` records its volume, and both return before the deadline.
The status is 500, and after the error text the handler still renders the
aggregator: a metric line follows the error. -/
theorem metricsHandler_renders_after_error :
    allFinished (runCollectors (launch oneRegionDown ["r1".toList, "r2".toList]) [0, 0, 1, 1])
      = true ∧
    (metricsHandler oneRegionDown [0, 0, 1, 1]).status = 500 ∧
    (metricsHandler oneRegionDown [0, 0, 1, 1]).body
      = [BodyLine.text "boom".toList,
         BodyLine.metric (volumeSignature "r2".toList (plainVolume "vol-2".toList)) 1] ∧
    (metricsHandler oneRegionDown [0, 0, 1, 1]).rendered = true := by
  decide

end EbsExporter
